import Mathlib

/-!
Shallow embedding of the methseq orchestration engine
(`src/methseq/scripts/__init__.py`): `count_fastq_reads` and
`submit_workflow` (staging, submission, polling loop with interrupt
handling, and output collection), together with the parts of the
`methseq.workflows` registry that `submit_workflow` consumes.
-/

namespace Methseq

/-- Python `os.path.basename`: the component after the last slash. -/
def basename (p : String) : String := (p.splitOn "/").getLastD ""

/-- Python `os.path.join(dir, name)` for a relative `name`. -/
def join (dir name : String) : String := dir ++ "/" ++ name

/-- Embedding of `count_fastq_reads(file)`: the body runs
`for i, l in enumerate(file): pass` and then returns `int((i + 1) / 4)`.
The file is modelled as its list of lines.  The loop variable `i` is
modelled as an `Option Nat` that the loop rebinds to each index in turn;
if the file yields no lines the loop body never runs, `i` stays unbound
and reading it raises `UnboundLocalError`, modelled as `none`. -/
def count_fastq_reads (file : List String) : Option Nat :=
  let i := (List.range file.length).foldl (fun _ idx => some idx) (none : Option Nat)
  match i with
  | none => none
  | some i => some ((i + 1) / 4)

/-- One element of a list-shaped Cromwell output value: either a string
(file path) or a nested list of file paths. -/
inductive OutItem where
  | str (s : String)
  | lst (l : List String)
deriving DecidableEq, Repr

/-- The raw value of one named output of a completed job: a single path,
or a list whose elements are paths or nested lists of paths. -/
inductive OutputDescriptor where
  | single (s : String)
  | seq (items : List OutItem)
deriving DecidableEq, Repr

/-- Python iteration over an `OutItem`: iterating a `str` yields its
characters one by one (as one-character strings), iterating a `list`
yields its elements.  This is what `itertools.chain.from_iterable` does
to each element of its argument. -/
def pyIter : OutItem → List String
  | .str s => s.data.map (fun c => String.mk [c])
  | .lst l => l

/-- The test `isinstance(i, list)`. -/
def isListItem : OutItem → Bool
  | .str _ => false
  | .lst _ => true

/-- Reading an element of `output` as a string; only used on the branch
where no element of `output` is a list, so the `lst` case is unreachable
there. -/
def itemStr : OutItem → String
  | .str s => s
  | .lst _ => ""

/-- Embedding of the normalization in `submit_workflow` (lines 154-160):
`if isinstance(output, str): files = [output]`
`elif any(isinstance(i, list) for i in output): files = list(chain.from_iterable(output))`
`else: files = output`. -/
def flattenOutput : OutputDescriptor → List String
  | .single s => [s]
  | .seq output =>
    if output.any isListItem then
      output.flatMap pyIter
    else
      output.map itemStr

/-- Observable effects of one `submit_workflow` invocation: filesystem
writes, Execution Client construction and calls, sleeps and warnings,
in the order the code performs them. -/
inductive Effect where
  | copyFile (src dst : String)
  | moveFile (src dst : String)
  | writeImportsZip (path : String)
  | writeInputs (path : String) (doc : String)
  | clientNew (host : String)
  | submitCall (wf inputs : String) (deps : Option String)
  | statusCall (s : String)
  | outputsCall (id : String)
  | abortCall (id : String)
  | sleepCall
  | warnMissing (path : String)
deriving DecidableEq, Repr

/-- How the process invocation ends: an explicit `exit(code)` (or normal
return, `exited 0`), or an uncaught Python exception, which makes the
interpreter terminate with a nonzero status. -/
inductive Outcome where
  | exited (code : Nat)
  | raised (err : String)
deriving DecidableEq, Repr

/-- Modelled from the spec: the Workflow Registry entry behind
`get_workflow_file`, `zip_imports_files` and `WORKFLOW_INPUT_FILES` of the
`methseq.workflows` module, which is not among the provided sources.
Spec section 6: a fixed mapping of workflow name to definition resource
path, expected input-document filename, and list of dependency names
(empty list meaning no imports archive is produced). -/
structure RegistryEntry where
  defPath : String
  inputFileName : String
  deps : List String
deriving DecidableEq, Repr

/-- The external world one invocation runs against: the registry
(modelled from the spec, see `RegistryEntry`), the local filesystem at
collection time, and the scripted Execution Client responses.
`statuses i` is the reply to the i-th `status` call; `interruptAt = some i`
means a KeyboardInterrupt is delivered during the sleep of loop
iteration `i`; `abortRaises` says whether the best-effort `abort` call
itself raises. -/
structure Env where
  registry : String → Option RegistryEntry
  fsExists : String → Bool
  remoteId : String
  statuses : Nat → String
  outputs : List (String × OutputDescriptor)
  interruptAt : Option Nat
  abortRaises : Bool

/-- The loop guard (line 143): `status != 'Submitted' and status != 'Running'`
negated, i.e. the statuses on which polling continues. -/
def isNonTerminal (s : String) : Bool := s == "Submitted" || s == "Running"

/-- Result of the `try`-ed polling loop (lines 139-151): either the
KeyboardInterrupt handler ran (abort issued, `exit(1)`), or the loop
broke out with a terminal status. Both carry the trace of effects. -/
inductive MonitorResult where
  | interrupted (trace : List Effect)
  | terminal (trace : List Effect) (status : String)
deriving DecidableEq, Repr

/-- Embedding of the polling loop (lines 140-145) together with the
KeyboardInterrupt handler (lines 148-151).  Each iteration first sleeps,
then queries status once; an interrupt delivered during the sleep of
iteration `i` jumps to the handler, which calls abort once.  `fuel`
bounds how many iterations we unfold; `none` means the loop is still
running after `fuel` iterations (the real loop has no bound). -/
def monitorLoop (statuses : Nat → String) (interruptAt : Option Nat) (wid : String) :
    Nat → Nat → Option MonitorResult
  | 0, _ => none
  | fuel + 1, i =>
    if interruptAt = some i then
      some (.interrupted [Effect.sleepCall, Effect.abortCall wid])
    else
      let s := statuses i
      if isNonTerminal s then
        match monitorLoop statuses interruptAt wid fuel (i + 1) with
        | none => none
        | some (.interrupted tr) =>
          some (.interrupted (Effect.sleepCall :: Effect.statusCall s :: tr))
        | some (.terminal tr st) =>
          some (.terminal (Effect.sleepCall :: Effect.statusCall s :: tr) st)
      else
        some (.terminal [Effect.sleepCall, Effect.statusCall s] s)

/-- Embedding of the per-file body of the collection loop (lines 162-171):
if the file exists it is moved or copied into the destination under its
base name, otherwise a missing-file warning is emitted. -/
def collectFile (fsExists : String → Bool) (destination : String) (move : Bool)
    (file : String) : List Effect :=
  if fsExists file then
    let destination_file := join destination (basename file)
    if move then [Effect.moveFile file destination_file]
    else [Effect.copyFile file destination_file]
  else
    [Effect.warnMissing file]

/-- All file paths named by the outputs mapping, flattened, in the
insertion order of `outputs.values()`. -/
def outputFiles (outputs : List (String × OutputDescriptor)) : List String :=
  outputs.flatMap (fun p => flattenOutput p.2)

/-- Embedding of the collection loop (lines 154-171): for each output
value, normalize it, then process each file in order. -/
def collect (fsExists : String → Bool) (outputs : List (String × OutputDescriptor))
    (destination : String) (move : Bool) : List Effect :=
  outputs.flatMap (fun p => (flattenOutput p.2).flatMap (collectFile fsExists destination move))

/-- Comparison of input-mapping entries by key, the order
`json.dump(..., sort_keys=True)` sorts object members in. -/
def keyLe (a b : String × String) : Prop := a.1 ≤ b.1

instance : DecidableRel keyLe := fun a b => inferInstanceAs (Decidable (a.1 ≤ b.1))

instance : IsTotal (String × String) keyLe := ⟨fun a b => le_total a.1 b.1⟩

instance : IsTrans (String × String) keyLe := ⟨fun _ _ _ h h' => le_trans h h'⟩

/-- The entries of the input mapping in sorted key order, as
`sort_keys=True` emits them. -/
def sortKeys (m : List (String × String)) : List (String × String) :=
  m.insertionSort keyLe

/-- One serialized member line of the inputs JSON object, at the fixed
`indent=4` indentation. -/
def renderEntry (p : String × String) : String :=
  "    \x22" ++ p.1 ++ "\x22: \x22" ++ p.2 ++ "\x22"

/-- Embedding of `dump(inputs, file, indent=4, sort_keys=True)` (line 123)
for a flat string-valued mapping: members in sorted key order, four-space
indentation, one member per line. String escaping is not modelled (keys
and values are taken verbatim). -/
def jsonDump (m : List (String × String)) : String :=
  match sortKeys m with
  | [] => "\x7b\x7d"
  | l => "\x7b\n" ++ String.intercalate ",\n" (l.map renderEntry) ++ "\n\x7d"

/-- The staging writes (lines 111-124): copy the registered definition
file into the destination under its base name; produce the imports
archive when the workflow has dependencies; write the inputs JSON at the
registry's expected input filename. -/
def stagingEffects (entry : RegistryEntry) (workflow : String)
    (inputs : List (String × String)) (destination : String) : List Effect :=
  Effect.copyFile entry.defPath (join destination (basename entry.defPath)) ::
    (if entry.deps.isEmpty then [] else
      [Effect.writeImportsZip (join destination (workflow ++ ".imports.zip"))]) ++
    [Effect.writeInputs (join destination entry.inputFileName) (jsonDump inputs)]

/-- The value `zip_imports_files` returns: the archive path when the
workflow has dependencies, otherwise a falsy result (modelled `none`).
Modelled from the spec, section 4.1: archive named
`<workflow_name>.imports.zip` in the destination directory. -/
def imports_file (entry : RegistryEntry) (workflow destination : String) : Option String :=
  if entry.deps.isEmpty then none
  else some (join destination (workflow ++ ".imports.zip"))

/-- Embedding of `submit_workflow(host, workflow, inputs, destination,
sleep_time, dont_run, move)` (lines 98-171).  The result is `none` when
the polling loop is still running after `fuel` iterations, otherwise the
ordered effect trace paired with how the process ends.  An unknown
workflow name makes `get_workflow_file` raise before any filesystem
write (registry modelled from the spec, see `RegistryEntry`). -/
def submit_workflow (env : Env) (host : Option String) (workflow : String)
    (inputs : List (String × String)) (destination : String)
    (dont_run : Bool) (move : Bool) (fuel : Nat) : Option (List Effect × Outcome) :=
  match env.registry workflow with
  | none => some ([], .raised "UnknownWorkflowError")
  | some entry =>
    let workflow_file := join destination (basename entry.defPath)
    let inputs_file := join destination entry.inputFileName
    let staged := stagingEffects entry workflow inputs destination
    if dont_run then some (staged, .exited 0)
    else
      let hostUrl := host.getD "http://localhost:8000"
      let wid := env.remoteId
      let pre := staged ++ [Effect.clientNew hostUrl,
        Effect.submitCall workflow_file inputs_file (imports_file entry workflow destination)]
      match monitorLoop env.statuses env.interruptAt wid fuel 0 with
      | none => none
      | some (.interrupted tr) =>
        some (pre ++ tr, if env.abortRaises then .raised "AbortError" else .exited 1)
      | some (.terminal tr st) =>
        if st = "Succeeded" then
          some (pre ++ tr ++ Effect.outputsCall wid ::
            collect env.fsExists env.outputs destination move, .exited 0)
        else
          some (pre ++ tr, .exited 1)

/-- Semantic view of collection needed for idempotence: the destination
directory as a map from full path to file content, updated by the loop of
lines 162-169.  A file is transferred only when it exists in the source
filesystem `fs`; the transfer overwrites `join destination (basename file)`
with the source content. -/
def applyFiles (fs : String → Option String) (destination : String)
    (files : List String) (dest : String → Option String) : String → Option String :=
  files.foldl (fun d file =>
    match fs file with
    | some c => fun name => if name = join destination (basename file) then some c else d name
    | none => d) dest

/-- One whole Output Collector run in copy mode over the destination
directory state (copying does not change the source filesystem `fs`). -/
def applyCollect (fs : String → Option String) (outputs : List (String × OutputDescriptor))
    (destination : String) (dest : String → Option String) : String → Option String :=
  applyFiles fs destination (outputFiles outputs) dest

/-- The content the last transfer of `files` writes at destination path
`name`, if any transfer writes there at all. -/
def lastWrite (fs : String → Option String) (destination : String) :
    List String → String → Option String
  | [], _ => none
  | file :: rest, name =>
    match lastWrite fs destination rest name with
    | some c => some c
    | none =>
      match fs file with
      | some c => if name = join destination (basename file) then some c else none
      | none => none

/-- Number of effects in a trace satisfying `p`. -/
def countE (p : Effect → Bool) (tr : List Effect) : Nat := (tr.filter p).length

def isStatusCall : Effect → Bool
  | .statusCall _ => true
  | _ => false

def isOutputsCall : Effect → Bool
  | .outputsCall _ => true
  | _ => false

def isAbortCall : Effect → Bool
  | .abortCall _ => true
  | _ => false

/-- Effects that construct or talk to the Execution Client. -/
def isClientEffect : Effect → Bool
  | .clientNew _ => true
  | .submitCall _ _ _ => true
  | .statusCall _ => true
  | .outputsCall _ => true
  | .abortCall _ => true
  | _ => false

def isWarn : Effect → Bool
  | .warnMissing _ => true
  | _ => false

def isTransfer : Effect → Bool
  | .copyFile _ _ => true
  | .moveFile _ _ => true
  | _ => false

/-- The trace the polling loop produces for `n` full iterations starting
at iteration `i`: each iteration is exactly one sleep followed by exactly
one status query. -/
def pollTraceFrom (statuses : Nat → String) : Nat → Nat → List Effect
  | _, 0 => []
  | i, n + 1 =>
    Effect.sleepCall :: Effect.statusCall (statuses i) :: pollTraceFrom statuses (i + 1) n

/-- The transfer effect the collection loop performs for an existing
file: move or copy into the destination under the file's base name. -/
def transferEffect (destination : String) (move : Bool) (f : String) : Effect :=
  if move then Effect.moveFile f (join destination (basename f))
  else Effect.copyFile f (join destination (basename f))

/-- Whether an `Outcome` is a termination with nonzero process status: an
explicit nonzero `exit`, or an uncaught exception (the Python interpreter
then exits with status 1). -/
def nonzeroTermination : Outcome → Bool
  | .exited c => c != 0
  | .raised _ => true

/-- Strict comparison of input-mapping entries by key. -/
def keyLt (a b : String × String) : Prop := a.1 < b.1

instance : IsAntisymm (String × String) keyLt :=
  ⟨fun a _ h h' => absurd (lt_trans h h') (lt_irrefl a.1)⟩

/-! ### Helper lemmas -/

theorem countE_append (p : Effect → Bool) (l₁ l₂ : List Effect) :
    countE p (l₁ ++ l₂) = countE p l₁ + countE p l₂ := by
  simp [countE, List.filter_append]

theorem countE_eq_zero (p : Effect → Bool) (tr : List Effect)
    (h : ∀ e ∈ tr, p e = false) : countE p tr = 0 := by
  simp only [countE, List.length_eq_zero]
  exact List.filter_eq_nil_iff.mpr (by simpa using h)

theorem mem_stagingEffects (entry : RegistryEntry) (workflow : String)
    (inputs : List (String × String)) (destination : String) (e : Effect)
    (he : e ∈ stagingEffects entry workflow inputs destination) :
    (∃ a b, e = .copyFile a b) ∨ (∃ a, e = .writeImportsZip a) ∨
      (∃ a b, e = .writeInputs a b) := by
  unfold stagingEffects at he
  cases hd : entry.deps.isEmpty <;> rw [hd] at he
  · simp at he
    rcases he with h | h | h <;> subst h <;> simp
  · simp at he
    rcases he with h | h <;> subst h <;> simp

theorem mem_pollTraceFrom (statuses : Nat → String) (e : Effect) :
    ∀ n i, e ∈ pollTraceFrom statuses i n →
      e = Effect.sleepCall ∨ ∃ s, e = Effect.statusCall s := by
  intro n
  induction n with
  | zero => intro i h; simp [pollTraceFrom] at h
  | succ n ih =>
    intro i h
    simp only [pollTraceFrom, List.mem_cons] at h
    rcases h with h | h | h
    · exact Or.inl h
    · exact Or.inr ⟨_, h⟩
    · exact ih (i + 1) h

theorem mem_collectFile (fsExists : String → Bool) (destination : String) (move : Bool)
    (file : String) (e : Effect) (he : e ∈ collectFile fsExists destination move file) :
    isTransfer e = true ∨ isWarn e = true := by
  unfold collectFile at he
  cases hf : fsExists file <;> rw [hf] at he
  · simp at he; subst he; simp [isWarn]
  · cases move <;> simp at he <;> subst he <;> simp [isTransfer]

theorem mem_collect (fsExists : String → Bool) (outputs : List (String × OutputDescriptor))
    (destination : String) (move : Bool) (e : Effect)
    (he : e ∈ collect fsExists outputs destination move) :
    isTransfer e = true ∨ isWarn e = true := by
  unfold collect at he
  simp only [List.mem_flatMap] at he
  obtain ⟨p, _, f, _, hf⟩ := he
  exact mem_collectFile fsExists destination move f e hf

theorem countE_statusCall_pollTraceFrom (statuses : Nat → String) :
    ∀ n i, countE isStatusCall (pollTraceFrom statuses i n) = n := by
  intro n
  induction n with
  | zero => intro i; simp [pollTraceFrom, countE]
  | succ n ih =>
    intro i
    simp [pollTraceFrom, countE, List.filter_cons, isStatusCall] at *
    exact ih i.succ

/-! ### Polling loop lemmas -/

theorem monitorLoop_terminal (statuses : Nat → String) (interruptAt : Option Nat)
    (wid : String) :
    ∀ k i fuel, k < fuel →
    (∀ j, j < k → isNonTerminal (statuses (i + j)) = true) →
    isNonTerminal (statuses (i + k)) = false →
    (∀ j, j ≤ k → interruptAt ≠ some (i + j)) →
    monitorLoop statuses interruptAt wid fuel i =
      some (.terminal (pollTraceFrom statuses i (k + 1)) (statuses (i + k))) := by
  intro k
  induction k with
  | zero =>
    intro i fuel hfuel hnt hterm hint
    cases fuel with
    | zero => omega
    | succ f =>
      have hi : ¬ interruptAt = some i := by simpa using hint 0 (Nat.le_refl 0)
      have ht : isNonTerminal (statuses i) = false := by simpa using hterm
      simp [monitorLoop, hi, ht, pollTraceFrom]
  | succ k ih =>
    intro i fuel hfuel hnt hterm hint
    cases fuel with
    | zero => omega
    | succ f =>
      have hi : ¬ interruptAt = some i := by simpa using hint 0 (Nat.zero_le _)
      have h0 : isNonTerminal (statuses i) = true := by
        simpa using hnt 0 (Nat.succ_pos k)
      have hrec := ih (i + 1) f (by omega)
        (fun j hj => by
          have h := hnt (j + 1) (by omega)
          have e : i + (j + 1) = i + 1 + j := by omega
          rwa [e] at h)
        (by
          have e : i + (k + 1) = i + 1 + k := by omega
          rwa [e] at hterm)
        (fun j hj => by
          have h := hint (j + 1) (by omega)
          have e : i + (j + 1) = i + 1 + j := by omega
          rwa [e] at h)
      have e : i + 1 + k = i + (k + 1) := by omega
      rw [e] at hrec
      simp [monitorLoop, hi, h0, hrec, pollTraceFrom]

theorem monitorLoop_interrupted (statuses : Nat → String) (wid : String) :
    ∀ k i fuel, k < fuel →
    (∀ j, j < k → isNonTerminal (statuses (i + j)) = true) →
    monitorLoop statuses (some (i + k)) wid fuel i =
      some (.interrupted
        (pollTraceFrom statuses i k ++ [Effect.sleepCall, Effect.abortCall wid])) := by
  intro k
  induction k with
  | zero =>
    intro i fuel hfuel hnt
    cases fuel with
    | zero => omega
    | succ f => simp [monitorLoop, pollTraceFrom]
  | succ k ih =>
    intro i fuel hfuel hnt
    cases fuel with
    | zero => omega
    | succ f =>
      have hi : ¬ (some (i + (k + 1)) : Option Nat) = some i := by
        simp only [Option.some.injEq]
        omega
      have h0 : isNonTerminal (statuses i) = true := by
        simpa using hnt 0 (Nat.succ_pos k)
      have hrec := ih (i + 1) f (by omega)
        (fun j hj => by
          have h := hnt (j + 1) (by omega)
          have e : i + (j + 1) = i + 1 + j := by omega
          rwa [e] at h)
      have e : i + 1 + k = i + (k + 1) := by omega
      rw [e] at hrec
      simp [monitorLoop, hi, h0, hrec, pollTraceFrom]

theorem monitorLoop_none (statuses : Nat → String) (wid : String)
    (hall : ∀ j, isNonTerminal (statuses j) = true) :
    ∀ fuel i, monitorLoop statuses none wid fuel i = none := by
  intro fuel
  induction fuel with
  | zero => intro i; simp [monitorLoop]
  | succ f ih => intro i; simp [monitorLoop, hall i, ih (i + 1)]

/-! ### Collection lemmas -/

theorem collect_eq_flatMap (fsExists : String → Bool)
    (outputs : List (String × OutputDescriptor)) (destination : String) (move : Bool) :
    collect fsExists outputs destination move =
      (outputFiles outputs).flatMap (collectFile fsExists destination move) := by
  simp [collect, outputFiles, List.flatMap_assoc]

theorem collectFiles_filter_warn (fsExists : String → Bool) (destination : String)
    (move : Bool) :
    ∀ files : List String,
      (files.flatMap (collectFile fsExists destination move)).filter isWarn =
        (files.filter (fun f => !fsExists f)).map Effect.warnMissing := by
  intro files
  induction files with
  | nil => simp
  | cons f rest ih =>
    cases hf : fsExists f <;> cases move <;>
      simp [collectFile, hf, ih, isWarn, List.filter_cons]

theorem collectFiles_filter_transfer (fsExists : String → Bool) (destination : String)
    (move : Bool) :
    ∀ files : List String,
      (files.flatMap (collectFile fsExists destination move)).filter isTransfer =
        (files.filter fsExists).map (transferEffect destination move) := by
  intro files
  induction files with
  | nil => simp
  | cons f rest ih =>
    cases hf : fsExists f <;> cases move <;>
      simp [collectFile, hf, ih, isTransfer, transferEffect, List.filter_cons]

/-! ### Destination-directory semantics lemmas -/

theorem applyFiles_eq_lastWrite (fs : String → Option String) (destination : String) :
    ∀ (files : List String) (dest : String → Option String) (name : String),
      applyFiles fs destination files dest name =
        match lastWrite fs destination files name with
        | some c => some c
        | none => dest name := by
  intro files
  induction files with
  | nil => intro dest name; simp [applyFiles, lastWrite]
  | cons file rest ih =>
    intro dest name
    have step : applyFiles fs destination (file :: rest) dest
        = applyFiles fs destination rest
            (match fs file with
             | some c => fun name =>
                 if name = join destination (basename file) then some c else dest name
             | none => dest) := rfl
    rw [step, ih]
    cases h : lastWrite fs destination rest name with
    | some c => simp [lastWrite, h]
    | none =>
      simp only [lastWrite, h]
      cases hf : fs file with
      | some c =>
        by_cases hn : name = join destination (basename file) <;> simp [hn]
      | none => rfl

/-! ### Sorted-serialization lemmas -/

theorem sortKeys_strictSorted (m : List (String × String))
    (h : (m.map Prod.fst).Nodup) : (sortKeys m).Pairwise keyLt := by
  have hs : List.Sorted keyLe (sortKeys m) := List.sorted_insertionSort keyLe m
  have hp : (sortKeys m).Perm m := List.perm_insertionSort keyLe m
  have hn : ((sortKeys m).map Prod.fst).Nodup := ((hp.map Prod.fst).nodup_iff).mpr h
  have hne : (sortKeys m).Pairwise (fun a b : String × String => a.1 ≠ b.1) :=
    List.pairwise_map.mp hn
  exact (hs.and hne).imp (fun hab => lt_of_le_of_ne hab.1 hab.2)

theorem sortKeys_eq_of_perm (m₁ m₂ : List (String × String))
    (h₁ : (m₁.map Prod.fst).Nodup) (hp : m₁.Perm m₂) : sortKeys m₁ = sortKeys m₂ := by
  have h₂ : (m₂.map Prod.fst).Nodup := ((hp.map Prod.fst).nodup_iff).mp h₁
  have p : (sortKeys m₁).Perm (sortKeys m₂) :=
    (List.perm_insertionSort keyLe m₁).trans (hp.trans (List.perm_insertionSort keyLe m₂).symm)
  exact List.eq_of_perm_of_sorted p (sortKeys_strictSorted m₁ h₁) (sortKeys_strictSorted m₂ h₂)

theorem filter_staging_nil (p : Effect → Bool)
    (hc : ∀ a b, p (Effect.copyFile a b) = false)
    (hz : ∀ a, p (Effect.writeImportsZip a) = false)
    (hw : ∀ a b, p (Effect.writeInputs a b) = false)
    (entry : RegistryEntry) (workflow : String) (inputs : List (String × String))
    (destination : String) :
    (stagingEffects entry workflow inputs destination).filter p = [] := by
  refine List.filter_eq_nil_iff.mpr ?_
  intro e he
  rcases mem_stagingEffects entry workflow inputs destination e he with
    ⟨a, b, rfl⟩ | ⟨a, rfl⟩ | ⟨a, b, rfl⟩ <;> simp [hc, hz, hw]

theorem filter_poll_nil (p : Effect → Bool) (hsl : p Effect.sleepCall = false)
    (hst : ∀ s, p (Effect.statusCall s) = false) (statuses : Nat → String) (n i : Nat) :
    (pollTraceFrom statuses i n).filter p = [] := by
  refine List.filter_eq_nil_iff.mpr ?_
  intro e he
  rcases mem_pollTraceFrom statuses e n i he with rfl | ⟨s, rfl⟩ <;> simp [hsl, hst]

theorem filter_collectFiles_nil (p : Effect → Bool)
    (hc : ∀ a b, p (Effect.copyFile a b) = false)
    (hm : ∀ a b, p (Effect.moveFile a b) = false)
    (hw : ∀ a, p (Effect.warnMissing a) = false)
    (fsExists : String → Bool) (destination : String) (move : Bool) :
    ∀ files : List String,
      (files.flatMap (collectFile fsExists destination move)).filter p = [] := by
  intro files
  induction files with
  | nil => simp
  | cons f rest ih =>
    cases hf : fsExists f <;> cases move <;>
      simp [collectFile, hf, ih, List.filter_cons, hc, hm, hw]

theorem filter_collect_nil (p : Effect → Bool)
    (hc : ∀ a b, p (Effect.copyFile a b) = false)
    (hm : ∀ a b, p (Effect.moveFile a b) = false)
    (hw : ∀ a, p (Effect.warnMissing a) = false)
    (fsExists : String → Bool) (outputs : List (String × OutputDescriptor))
    (destination : String) (move : Bool) :
    (collect fsExists outputs destination move).filter p = [] := by
  rw [collect_eq_flatMap]
  exact filter_collectFiles_nil p hc hm hw fsExists destination move (outputFiles outputs)

theorem foldl_range_last : ∀ n : Nat,
    (List.range n).foldl (fun (_ : Option Nat) idx => some idx) none
      = if n = 0 then none else some (n - 1) := by
  intro n
  cases n with
  | zero => simp
  | succ n => simp [List.range_succ, List.foldl_append]

/-! ### Claim theorems -/

/-- C10: `count_fastq_reads` over a file yielding `n` lines returns
`floor(n / 4)` when `n ≥ 1`; over a file yielding zero lines the loop
never binds `i`, so reading `i + 1` after the loop fails
(`UnboundLocalError`, modelled as `none`). -/
theorem count_fastq_reads_floor_div (file : List String) :
    count_fastq_reads file =
      if file.length = 0 then none else some (file.length / 4) := by
  unfold count_fastq_reads
  rw [foldl_range_last]
  cases file with
  | nil => rfl
  | cons a l => simp

/-- C1 counterexample: the claim says the OutputDescriptor
`["a.txt", ["b.txt","c.txt"]]` normalizes to `["a.txt","b.txt","c.txt"]`,
but the code runs `chain.from_iterable` over the mixed sequence, which
iterates the plain string `"a.txt"` character by character. -/
theorem flatten_mixed_counterexample :
    flattenOutput (.seq [.str "a.txt", .lst ["b.txt", "c.txt"]]) ≠
      ["a.txt", "b.txt", "c.txt"] := by
  decide

/-- C1 amended: a single string becomes the one-element sequence; a plain
flat sequence of strings passes through unchanged; a sequence whose
elements are all nested sequences is flattened exactly one level,
concatenating elements in order; but a sequence mixing a plain string
with a nested sequence is flattened by iterating every element, so its
string elements are split into their one-character substrings. -/
theorem flattenOutput_behavior :
    (∀ s, flattenOutput (.single s) = [s]) ∧
    (∀ l : List String, flattenOutput (.seq (l.map OutItem.str)) = l) ∧
    (∀ ls : List (List String), flattenOutput (.seq (ls.map OutItem.lst)) = ls.flatten) ∧
    (∀ (a : String) (l : List String),
      flattenOutput (.seq [OutItem.str a, OutItem.lst l]) =
        a.data.map (fun c => String.mk [c]) ++ l) := by
  refine ⟨fun s => rfl, ?_, ?_, ?_⟩
  · intro l
    have hany : (l.map OutItem.str).any isListItem = false := by
      simp [List.any_map, isListItem, Function.comp]
    simp [flattenOutput, hany, List.map_map, Function.comp_def, itemStr]
  · intro ls
    cases ls with
    | nil => rfl
    | cons x xs =>
      simp only [flattenOutput]
      rw [if_pos]
      · simp [List.flatMap_map, pyIter, Function.comp_def]
        exact List.flatMap_id ..
      · simp [isListItem]
  · intro a l
    simp [flattenOutput, isListItem, pyIter]

/-- C5: for a workflow name absent from the Registry, `get_workflow_file`
raises `UnknownWorkflowError` before anything else happens: the effect
trace is empty (zero filesystem writes, the Execution Client is never
constructed or contacted) and the process terminates by exception. -/
theorem unknown_workflow_no_writes (env : Env) (host : Option String) (workflow : String)
    (inputs : List (String × String)) (destination : String) (dont_run move : Bool)
    (fuel : Nat) (h : env.registry workflow = none) :
    submit_workflow env host workflow inputs destination dont_run move fuel =
      some ([], Outcome.raised "UnknownWorkflowError") := by
  simp [submit_workflow, h]

theorem unknown_workflow_no_writes_witness :
    submit_workflow ⟨fun _ => none, fun _ => false, "", fun _ => "", [], none, false⟩
      none "bwa" [] "dest" false false 0 =
      some ([], Outcome.raised "UnknownWorkflowError") :=
  unknown_workflow_no_writes _ none "bwa" [] "dest" false false 0 rfl

/-- C9: with `dont_run` set, the staged artifacts (definition copy,
optional imports archive, input document) are written and the process
exits with code 0; the trace is exactly the staging writes, which contain
no Execution Client construction or call. -/
theorem dont_run_stages_and_exits_zero (env : Env) (host : Option String)
    (workflow : String) (entry : RegistryEntry) (inputs : List (String × String))
    (destination : String) (move : Bool) (fuel : Nat)
    (h : env.registry workflow = some entry) :
    submit_workflow env host workflow inputs destination true move fuel =
      some (stagingEffects entry workflow inputs destination, Outcome.exited 0) ∧
    countE isClientEffect (stagingEffects entry workflow inputs destination) = 0 := by
  refine ⟨by simp [submit_workflow, h], ?_⟩
  exact countE_eq_zero _ _ (fun e he => by
    rcases mem_stagingEffects entry workflow inputs destination e he with
      ⟨a, b, rfl⟩ | ⟨a, rfl⟩ | ⟨a, b, rfl⟩ <;> rfl)

theorem dont_run_stages_and_exits_zero_witness :
    submit_workflow ⟨fun _ => some ⟨"pkg/wf.wdl", "wf.inputs.json", []⟩, fun _ => false, "",
        fun _ => "", [], none, false⟩ none "wf" [("a", "1")] "dest" true false 0 =
      some (stagingEffects ⟨"pkg/wf.wdl", "wf.inputs.json", []⟩ "wf" [("a", "1")] "dest",
        Outcome.exited 0) ∧
    countE isClientEffect (stagingEffects ⟨"pkg/wf.wdl", "wf.inputs.json", []⟩ "wf"
        [("a", "1")] "dest") = 0 :=
  dont_run_stages_and_exits_zero _ none "wf" _ [("a", "1")] "dest" false 0 rfl

/-- C8: running the Output Collector twice over the same outputs mapping
in copy mode is idempotent on the destination directory state: only
files existing at source are transferred, each transfer overwrites the
destination entry at the file's base name deterministically, and copying
leaves the source filesystem unchanged, so the second run rewrites
exactly what the first wrote. -/
theorem collect_copy_idempotent (fs : String → Option String)
    (outputs : List (String × OutputDescriptor)) (destination : String)
    (dest : String → Option String) :
    applyCollect fs outputs destination (applyCollect fs outputs destination dest) =
      applyCollect fs outputs destination dest := by
  funext name
  unfold applyCollect
  rw [applyFiles_eq_lastWrite, applyFiles_eq_lastWrite]
  cases h : lastWrite fs destination (outputFiles outputs) name with
  | some c => rfl
  | none => rfl

/-- C6: the serialized input document holds exactly the supplied
key-value pairs (so re-parsing it recovers the supplied mapping
key-for-key), its members are in sorted key order at fixed indentation,
and two mappings that are equal as maps (permutations of each other with
duplicate-free keys) serialize to byte-identical documents. -/
theorem inputs_document_roundtrip_deterministic (m₁ m₂ : List (String × String))
    (h₁ : (m₁.map Prod.fst).Nodup) (hp : m₁.Perm m₂) :
    (∀ kv, kv ∈ sortKeys m₁ ↔ kv ∈ m₁) ∧
    List.Sorted keyLe (sortKeys m₁) ∧
    jsonDump m₁ = jsonDump m₂ := by
  refine ⟨fun kv => ?_, List.sorted_insertionSort keyLe m₁, ?_⟩
  · simp [sortKeys, List.mem_insertionSort]
  · unfold jsonDump
    rw [sortKeys_eq_of_perm m₁ m₂ h₁ hp]

theorem inputs_document_roundtrip_deterministic_witness :
    (∀ kv, kv ∈ sortKeys [("b", "2"), ("a", "1")] ↔ kv ∈ [("b", "2"), ("a", "1")]) ∧
    List.Sorted keyLe (sortKeys [("b", "2"), ("a", "1")]) ∧
    jsonDump [("b", "2"), ("a", "1")] = jsonDump [("a", "1"), ("b", "2")] :=
  inputs_document_roundtrip_deterministic [("b", "2"), ("a", "1")] [("a", "1"), ("b", "2")]
    (by decide) (by decide)

/-- C4: the polling loop, on every iteration, first blocks and then
queries status exactly once (the trace is exactly `pollTraceFrom`, one
sleep then one status query per iteration), and it terminates the first
time the status is neither Submitted nor Running; when every polled
status is Submitted or Running the loop never terminates: no iteration
bound `fuel` suffices. -/
theorem polling_loop_shape_and_unbounded :
    (∀ (statuses : Nat → String) (wid : String) (k fuel : Nat),
      (∀ j, j < k → isNonTerminal (statuses j) = true) →
      isNonTerminal (statuses k) = false → k < fuel →
      monitorLoop statuses none wid fuel 0 =
        some (.terminal (pollTraceFrom statuses 0 (k + 1)) (statuses k))) ∧
    (∀ (statuses : Nat → String) (wid : String),
      (∀ j, isNonTerminal (statuses j) = true) →
      ∀ fuel i, monitorLoop statuses none wid fuel i = none) := by
  constructor
  · intro statuses wid k fuel hnt hterm hfuel
    have h := monitorLoop_terminal statuses none wid k 0 fuel hfuel
      (fun j hj => by simpa using hnt j hj) (by simpa using hterm)
      (fun j _ => by simp)
    simpa using h
  · exact fun statuses wid hall => monitorLoop_none statuses wid hall

theorem polling_loop_shape_and_unbounded_witness :
    monitorLoop (fun j => if j < 2 then "Running" else "Failed") none "w" 3 0 =
      some (.terminal (pollTraceFrom (fun j => if j < 2 then "Running" else "Failed") 0 3)
        "Failed") ∧
    monitorLoop (fun _ => "Running") none "w" 5 0 = none := by
  constructor
  · have h := polling_loop_shape_and_unbounded.1
      (fun j => if j < 2 then "Running" else "Failed") "w" 2 3
      (fun j hj => by interval_cases j <;> rfl) (by rfl) (by omega)
    simpa using h
  · exact polling_loop_shape_and_unbounded.2 (fun _ => "Running") "w" (fun _ => rfl) 5 0

/-- C2: when the polled statuses first leave Submitted/Running at index
`k`, the run calls `outputs()` exactly once and exits 0 if that terminal
status is Succeeded, and calls `outputs()` zero times and exits nonzero
(code 1) for any other terminal status, recognized or not. -/
theorem terminal_status_gates_outputs (env : Env) (host : Option String) (workflow : String)
    (entry : RegistryEntry) (inputs : List (String × String)) (destination : String)
    (move : Bool) (k fuel : Nat)
    (hreg : env.registry workflow = some entry) (hint : env.interruptAt = none)
    (hnt : ∀ j, j < k → isNonTerminal (env.statuses j) = true)
    (hterm : isNonTerminal (env.statuses k) = false) (hfuel : k < fuel) :
    ∃ tr, submit_workflow env host workflow inputs destination false move fuel =
        some (tr,
          if env.statuses k = "Succeeded" then Outcome.exited 0 else Outcome.exited 1) ∧
      countE isOutputsCall tr = (if env.statuses k = "Succeeded" then 1 else 0) := by
  have hmon : monitorLoop env.statuses env.interruptAt env.remoteId fuel 0 =
      some (.terminal (pollTraceFrom env.statuses 0 (k + 1)) (env.statuses k)) := by
    have h := monitorLoop_terminal env.statuses env.interruptAt env.remoteId k 0 fuel hfuel
      (fun j hj => by simpa using hnt j hj) (by simpa using hterm)
      (fun j _ => by simp [hint])
    simpa using h
  have hstagF : (stagingEffects entry workflow inputs destination).filter isOutputsCall = [] :=
    filter_staging_nil isOutputsCall (fun _ _ => rfl) (fun _ => rfl) (fun _ _ => rfl)
      entry workflow inputs destination
  have hpollF : (pollTraceFrom env.statuses 0 (k + 1)).filter isOutputsCall = [] :=
    filter_poll_nil isOutputsCall rfl (fun _ => rfl) env.statuses (k + 1) 0
  by_cases hs : env.statuses k = "Succeeded"
  · refine ⟨stagingEffects entry workflow inputs destination ++
      [Effect.clientNew (host.getD "http://localhost:8000"),
       Effect.submitCall (join destination (basename entry.defPath))
         (join destination entry.inputFileName) (imports_file entry workflow destination)] ++
      pollTraceFrom env.statuses 0 (k + 1) ++ Effect.outputsCall env.remoteId ::
      collect env.fsExists env.outputs destination move, ?_, ?_⟩
    · simp [submit_workflow, hreg, hmon, hs]
    · have hcolF : (collect env.fsExists env.outputs destination move).filter
          isOutputsCall = [] :=
        filter_collect_nil isOutputsCall (fun _ _ => rfl) (fun _ _ => rfl) (fun _ => rfl)
          env.fsExists env.outputs destination move
      simp [countE, List.filter_append, List.filter_cons, hstagF, hpollF, hcolF,
        isOutputsCall, hs]
  · refine ⟨stagingEffects entry workflow inputs destination ++
      [Effect.clientNew (host.getD "http://localhost:8000"),
       Effect.submitCall (join destination (basename entry.defPath))
         (join destination entry.inputFileName) (imports_file entry workflow destination)] ++
      pollTraceFrom env.statuses 0 (k + 1), ?_, ?_⟩
    · simp [submit_workflow, hreg, hmon, hs]
    · simp [countE, List.filter_append, hstagF, hpollF, isOutputsCall, hs]

theorem terminal_status_gates_outputs_witness :
    ∃ tr, submit_workflow ⟨fun _ => some ⟨"p/w.wdl", "w.json", []⟩, fun _ => true, "id",
        fun _ => "Succeeded", [], none, false⟩ none "wf" [] "d" false false 1 =
        some (tr, Outcome.exited 0) ∧ countE isOutputsCall tr = 1 := by
  have h := terminal_status_gates_outputs ⟨fun _ => some ⟨"p/w.wdl", "w.json", []⟩,
      fun _ => true, "id", fun _ => "Succeeded", [], none, false⟩ none "wf"
      ⟨"p/w.wdl", "w.json", []⟩ [] "d" false 0 1 rfl rfl
      (fun j hj => absurd hj (Nat.not_lt_zero j)) (by decide) (by omega)
  simpa using h

/-- C3: an interruption delivered during the sleep of polling iteration
`k` produces a trace that ends with the single abort call on the tracked
remote id (so no status query and no other call happens after it),
contains exactly `k` status calls before it and no other abort, and the
invocation terminates nonzero whether or not the abort call itself
raises. -/
theorem interrupt_single_abort_nonzero (env : Env) (host : Option String) (workflow : String)
    (entry : RegistryEntry) (inputs : List (String × String)) (destination : String)
    (move : Bool) (k fuel : Nat)
    (hreg : env.registry workflow = some entry) (hint : env.interruptAt = some k)
    (hnt : ∀ j, j < k → isNonTerminal (env.statuses j) = true) (hfuel : k < fuel) :
    ∃ σ out, submit_workflow env host workflow inputs destination false move fuel =
        some (σ ++ [Effect.sleepCall, Effect.abortCall env.remoteId], out) ∧
      countE isAbortCall σ = 0 ∧
      countE isStatusCall σ = k ∧
      nonzeroTermination out = true := by
  have hmon : monitorLoop env.statuses env.interruptAt env.remoteId fuel 0 =
      some (.interrupted (pollTraceFrom env.statuses 0 k ++
        [Effect.sleepCall, Effect.abortCall env.remoteId])) := by
    have h := monitorLoop_interrupted env.statuses env.remoteId k 0 fuel hfuel
      (fun j hj => by simpa using hnt j hj)
    rw [hint]
    simpa using h
  refine ⟨stagingEffects entry workflow inputs destination ++
      [Effect.clientNew (host.getD "http://localhost:8000"),
       Effect.submitCall (join destination (basename entry.defPath))
         (join destination entry.inputFileName) (imports_file entry workflow destination)] ++
      pollTraceFrom env.statuses 0 k,
    (if env.abortRaises then Outcome.raised "AbortError" else Outcome.exited 1),
    ?_, ?_, ?_, ?_⟩
  · simp [submit_workflow, hreg, hmon]
  · have hstagF : (stagingEffects entry workflow inputs destination).filter isAbortCall = [] :=
      filter_staging_nil isAbortCall (fun _ _ => rfl) (fun _ => rfl) (fun _ _ => rfl)
        entry workflow inputs destination
    have hpollF : (pollTraceFrom env.statuses 0 k).filter isAbortCall = [] :=
      filter_poll_nil isAbortCall rfl (fun _ => rfl) env.statuses k 0
    simp [countE, List.filter_append, hstagF, hpollF, isAbortCall]
  · have hstagF : (stagingEffects entry workflow inputs destination).filter isStatusCall = [] :=
      filter_staging_nil isStatusCall (fun _ _ => rfl) (fun _ => rfl) (fun _ _ => rfl)
        entry workflow inputs destination
    have hcount := countE_statusCall_pollTraceFrom env.statuses k 0
    simp [countE, List.filter_append, hstagF, isStatusCall] at hcount ⊢
    exact hcount
  · cases henv : env.abortRaises <;> simp [henv, nonzeroTermination]

theorem interrupt_single_abort_nonzero_witness :
    ∃ σ out, submit_workflow ⟨fun _ => some ⟨"p/w.wdl", "w.json", []⟩, fun _ => true, "id",
        fun _ => "Running", [], some 0, false⟩ none "wf" [] "d" false false 1 =
        some (σ ++ [Effect.sleepCall, Effect.abortCall "id"], out) ∧
      countE isAbortCall σ = 0 ∧
      countE isStatusCall σ = 0 ∧
      nonzeroTermination out = true := by
  have h := interrupt_single_abort_nonzero ⟨fun _ => some ⟨"p/w.wdl", "w.json", []⟩,
      fun _ => true, "id", fun _ => "Running", [], some 0, false⟩ none "wf"
      ⟨"p/w.wdl", "w.json", []⟩ [] "d" false 0 1 rfl rfl
      (fun j hj => absurd hj (Nat.not_lt_zero j)) (by omega)
  simpa using h

/-- C7: on a run whose job succeeds, collection emits exactly one
missing-output warning for each flattened path that does not exist, and
still transfers every flattened path that does exist (in order), so a
missing file never aborts the rest of collection and the invocation
still exits 0. -/
theorem missing_outputs_nonfatal (env : Env) (host : Option String) (workflow : String)
    (entry : RegistryEntry) (inputs : List (String × String)) (destination : String)
    (move : Bool) (k fuel : Nat)
    (hreg : env.registry workflow = some entry) (hint : env.interruptAt = none)
    (hnt : ∀ j, j < k → isNonTerminal (env.statuses j) = true)
    (hsucc : env.statuses k = "Succeeded") (hfuel : k < fuel) :
    ∃ σ, submit_workflow env host workflow inputs destination false move fuel =
        some (σ ++ collect env.fsExists env.outputs destination move, Outcome.exited 0) ∧
      (collect env.fsExists env.outputs destination move).filter isWarn =
        ((outputFiles env.outputs).filter (fun f => !env.fsExists f)).map
          Effect.warnMissing ∧
      (collect env.fsExists env.outputs destination move).filter isTransfer =
        ((outputFiles env.outputs).filter env.fsExists).map
          (transferEffect destination move) := by
  have hterm : isNonTerminal (env.statuses k) = false := by rw [hsucc]; rfl
  have hmon : monitorLoop env.statuses env.interruptAt env.remoteId fuel 0 =
      some (.terminal (pollTraceFrom env.statuses 0 (k + 1)) (env.statuses k)) := by
    have h := monitorLoop_terminal env.statuses env.interruptAt env.remoteId k 0 fuel hfuel
      (fun j hj => by simpa using hnt j hj) (by simpa using hterm)
      (fun j _ => by simp [hint])
    simpa using h
  refine ⟨stagingEffects entry workflow inputs destination ++
      [Effect.clientNew (host.getD "http://localhost:8000"),
       Effect.submitCall (join destination (basename entry.defPath))
         (join destination entry.inputFileName) (imports_file entry workflow destination)] ++
      pollTraceFrom env.statuses 0 (k + 1) ++ [Effect.outputsCall env.remoteId], ?_, ?_, ?_⟩
  · simp [submit_workflow, hreg, hmon, hsucc]
  · rw [collect_eq_flatMap]
    exact collectFiles_filter_warn env.fsExists destination move (outputFiles env.outputs)
  · rw [collect_eq_flatMap]
    exact collectFiles_filter_transfer env.fsExists destination move (outputFiles env.outputs)

theorem missing_outputs_nonfatal_witness :
    ∃ σ, submit_workflow ⟨fun _ => some ⟨"p/w.wdl", "w.json", []⟩,
        fun f => f == "x.bam", "id", fun _ => "Succeeded",
        [("bam", .single "x.bam"), ("logs", .seq [.str "missing.log"])], none, false⟩
        none "wf" [] "d" false false 1 =
        some (σ ++ collect (fun f => f == "x.bam")
          [("bam", .single "x.bam"), ("logs", .seq [.str "missing.log"])] "d" false,
          Outcome.exited 0) ∧
      (collect (fun f => f == "x.bam")
          [("bam", .single "x.bam"), ("logs", .seq [.str "missing.log"])] "d" false).filter
          isWarn =
        ((outputFiles [("bam", .single "x.bam"), ("logs", .seq [.str "missing.log"])]).filter
          (fun f => !(f == "x.bam"))).map Effect.warnMissing ∧
      (collect (fun f => f == "x.bam")
          [("bam", .single "x.bam"), ("logs", .seq [.str "missing.log"])] "d" false).filter
          isTransfer =
        ((outputFiles [("bam", .single "x.bam"), ("logs", .seq [.str "missing.log"])]).filter
          (fun f => f == "x.bam")).map (transferEffect "d" false) :=
  missing_outputs_nonfatal ⟨fun _ => some ⟨"p/w.wdl", "w.json", []⟩,
      fun f => f == "x.bam", "id", fun _ => "Succeeded",
      [("bam", .single "x.bam"), ("logs", .seq [.str "missing.log"])], none, false⟩
    none "wf" ⟨"p/w.wdl", "w.json", []⟩ [] "d" false 0 1 rfl rfl
    (fun j hj => absurd hj (Nat.not_lt_zero j)) rfl (by omega)

end Methseq
